import Mathlib

/-!
Shallow embedding of `src/paginationHarvest.ts` (pagination-harvest).

The TypeScript function `paginationHarvest` bootstraps a paginated fetch on
`startPage`, derives `totalPages` from the bootstrap result (`totalPages || 1`),
writes pages into a slot array (`allResults`, index `page - 1`), then drains the
remaining page numbers through a bounded-concurrency dispatcher
(`parallelWorker`) and reruns it over the failed pages up to `maxRetries`
times.  Asynchrony is modelled by an explicit scheduler: at each step a
schedule picks which in-flight fetch settles next; the launch loop, the settle
handlers (`then` / `catch` / `finally` + `runNext`) and the resolve condition
(`pointer === pages.length && running === 0`) are transcribed directly.

Ghost fields (`peak`, `cbCalls`, `succCount`, `workerRuns`) record observations
(maximum concurrent in-flight count, progress-callback invocations, successful
fetch completions, worker invocations) without influencing control flow.

A fetch outcome is deterministic per (retry round, page); the progress callback
is modelled as an optional function returning whether that invocation throws,
mirroring that the source never wraps `onProgress` in `try`/`catch`.
-/

namespace PaginationHarvest

/-- Outcome of one page fetch: the promise resolves with an item list or rejects. -/
inductive FetchOutcome (α : Type) where
  | success (items : List α)
  | failure
deriving DecidableEq, Repr

/-- The bootstrap fetch's resolved value: `data` is `none` when the result has no
valid item array (`!Array.isArray(firstResult.data)`), `totalPages` is the
optional reported total (a JS number, possibly negative). -/
structure PageResultM (α : Type) where
  data : Option (List α)
  totalPages : Option Int
deriving DecidableEq, Repr

/-- Pointwise function update (used for slot-array writes). -/
def updateAt {β : Type} (f : Nat → β) (j : Nat) (v : β) : Nat → β :=
  fun i => if i = j then v else f i

/-- The slot array `allResults : Array<T[] | undefined>`: a read function plus a
length.  Unwritten indices read as `none` (JS holes / `undefined`). -/
structure Slots (α : Type) where
  read : Nat → Option (List α)
  len : Nat

/-- `allResults[j] = v`: a JS array write grows the array when `j ≥ length`. -/
def Slots.write {α : Type} (s : Slots α) (j : Nat) (v : List α) : Slots α :=
  ⟨updateAt s.read j (some v), max s.len (j + 1)⟩

/-- `allResults.filter(Boolean).flat()`: drop the empty slots (holes /
`undefined`), concatenate the filled ones in ascending index order. -/
def Slots.assemble {α : Type} (s : Slots α) : List α :=
  ((List.range s.len).filterMap s.read).flatten

/-- `Array(n)`: `n` holes. -/
def Slots.init (α : Type) (n : Nat) : Slots α := ⟨fun _ => none, n⟩

/-- Local state of one `parallelWorker` run: `ptr` is `pointer`, `inflight` the
pages whose fetch was launched but has not settled (its length is `running`),
`failed` the `failed` accumulator, `peak` a ghost record of the maximum value
`running` ever reached. -/
structure WState where
  ptr : Nat
  inflight : List Nat
  failed : List Nat
  peak : Nat
deriving DecidableEq, Repr

/-- `pointer = 0`, `running = 0`, `failed = []`. -/
def initW : WState := ⟨0, [], [], 0⟩

/-- State shared across worker runs: the slot array, `fetchedPages`, and ghost
counters for callback invocations, successful fetch completions, and worker
invocations. -/
structure HState (α : Type) where
  slots : Slots α
  fetchedPages : Nat
  cbCalls : Nat
  succCount : Nat
  workerRuns : Nat

/-- What one `parallelWorker` run sees: the fetcher for this round, the
concurrency cap, the optional progress callback (returning whether the
invocation throws), and `totalPages` (second callback argument). -/
structure WCfg (α : Type) where
  fetchPage : Nat → FetchOutcome α
  maxParallel : Int
  cb : Option (Nat → Nat → Bool)
  tp : Nat

/-- The launch loop `while (running < maxParallel && pointer < pages.length)`:
take `pages[pointer++]`, increment `running` (recorded in the ghost `peak`),
start the fetch.  `fuel` only bounds the recursion; `launch` below supplies
enough for the loop to run to its guard. -/
def launchAux {α : Type} (C : WCfg α) (pages : List Nat) : Nat → WState → WState
  | 0, s => s
  | n + 1, s =>
    if (s.inflight.length : Int) < C.maxParallel ∧ s.ptr < pages.length then
      launchAux C pages n
        { ptr := s.ptr + 1,
          inflight := s.inflight ++ [pages.getD s.ptr 0],
          failed := s.failed,
          peak := max s.peak (s.inflight.length + 1) }
    else s

/-- Run the launch loop to completion of its guard. -/
def launch {α : Type} (C : WCfg α) (pages : List Nat) (s : WState) : WState :=
  launchAux C pages (pages.length - s.ptr) s

/-- One fetch settles (the schedule picked in-flight index `i`): on success the
`then` handler writes the slot, increments `fetchedPages` and invokes
`onProgress` — if that invocation throws, the rejection falls into the `catch`
handler, which pushes the page onto `failed`; on fetch failure the `catch`
handler pushes the page.  Either way `finally` decrements `running` (the page
leaves `inflight`). -/
def settle {α : Type} (C : WCfg α) (s : WState) (g : HState α) (i : Nat) :
    WState × HState α :=
  if s.inflight.length = 0 then (s, g)
  else
    let idx := i % s.inflight.length
    let page := s.inflight.getD idx 0
    let inflight' := s.inflight.eraseIdx idx
    match C.fetchPage page with
    | .success items =>
        let fetched := g.fetchedPages + 1
        let g' : HState α :=
          { slots := g.slots.write (page - 1) items,
            fetchedPages := fetched,
            cbCalls := g.cbCalls + (if C.cb.isSome then 1 else 0),
            succCount := g.succCount + 1,
            workerRuns := g.workerRuns }
        let throws := match C.cb with
          | some f => f fetched C.tp
          | none => false
        ({ s with inflight := inflight',
                  failed := s.failed ++ (if throws then [page] else []) }, g')
    | .failure =>
        ({ s with inflight := inflight', failed := s.failed ++ [page] }, g)

/-- The worker's event loop.  Each iteration is one `runNext` boundary: resolve
when `pointer === pages.length && running === 0`; if nothing is in flight and
the resolve condition fails, no handler can ever run again — the promise never
resolves (`none`); otherwise the schedule settles one in-flight fetch, whose
`finally` calls `runNext` (the launch loop) again. -/
def workerGo {α : Type} (C : WCfg α) (pages : List Nat) :
    Nat → List Nat → WState → HState α → Option (WState × HState α)
  | 0, _, _, _ => none
  | fuel + 1, sched, s, g =>
    if s.ptr = pages.length ∧ s.inflight = [] then some (s, g)
    else if s.inflight = [] then none
    else
      let p := settle C s g (sched.headD 0)
      workerGo C pages fuel sched.tail (launch C pages p.1) p.2

/-- One `parallelWorker(pages)` call: initial `runNext` (a launch pass), then
the event loop.  `pages.length + 1` iterations suffice for any resolving run
(each non-final iteration settles one of the at most `pages.length` launched
fetches).  The ghost `workerRuns` counts the invocation. -/
def runWorker {α : Type} (C : WCfg α) (pages : List Nat) (sched : List Nat)
    (g : HState α) : Option (WState × HState α) :=
  workerGo C pages (pages.length + 1) sched (launch C pages initW)
    { g with workerRuns := g.workerRuns + 1 }

/-- Caller-supplied data for one harvest: the bootstrap fetch's outcome
(`none` = the bootstrap fetch rejected), the per-round per-page fetch outcome,
the options, the JS truthiness of an item (for `.filter(Boolean)`), and the
settle schedule of each round. -/
structure Params (α : Type) where
  first : Option (PageResultM α)
  fetch : Nat → Nat → FetchOutcome α
  startPage : Nat
  maxParallel : Int
  maxRetries : Nat
  cb : Option (Nat → Nat → Bool)
  truthy : α → Bool
  scheds : Nat → List Nat

/-- Worker configuration of retry round `round`. -/
def wcfg {α : Type} (P : Params α) (tp : Nat) (round : Nat) : WCfg α :=
  ⟨P.fetch round, P.maxParallel, P.cb, tp⟩

/-- The ways `paginationHarvest` rejects: bootstrap fetch rejected, bootstrap
result has no item array, `Array(totalPages)` with a negative length
(RangeError), or the unprotected `onProgress` call on line 98 threw. -/
inductive HError where
  | bootstrapFailed
  | invalidFirst
  | rangeError
  | callbackThrew
deriving DecidableEq, Repr

/-- The resolved value `{ data, failedPages }`. -/
structure HarvestResult (α : Type) where
  data : List α
  failedPages : List Nat
deriving DecidableEq, Repr

/-- Resolved value plus the final internal state and the computed `totalPages`. -/
structure FullResult (α : Type) where
  res : HarvestResult α
  state : HState α
  tp : Nat

/-- `const totalPages = firstResult.totalPages || 1`: JS `||` replaces only
falsy values — for numbers, `0` (and `NaN`, outside this model); an absent
field and `0` default to `1`, every other value (negatives included) is kept. -/
def computedTotal {α : Type} (fr : PageResultM α) : Int :=
  match fr.totalPages with
  | some t => if t = 0 then 1 else t
  | none => 1

/-- `for (let i = startPage + 1; i <= totalPages; ++i) pagesToFetch.push(i)`. -/
def pageRange (startPage tp : Nat) : List Nat :=
  List.range' (startPage + 1) (tp - startPage)

/-- `for (let retry = 0; retry < maxRetries && failedPages.length > 0; ++retry)
{ failedPages = await parallelWorker(failedPages.slice()) }` — budget
`maxRetries`, each round rerunning the worker over exactly the currently
failed pages. -/
def retryLoop {α : Type} (P : Params α) (tp : Nat) :
    Nat → Nat → List Nat → HState α → Option (List Nat × HState α)
  | 0, _, failed, g => some (failed, g)
  | b + 1, round, failed, g =>
    if failed = [] then some (failed, g)
    else
      match runWorker (wcfg P tp round) failed (P.scheds round) g with
      | none => none
      | some (ws, g') => retryLoop P tp b (round + 1) ws.failed g'

/-- State after the bootstrap page is stored: `Array(totalPages)` with the
bootstrap items written at `startPage - 1`, `fetchedPages = 1`, and (if a
callback is present) its initial invocation counted. -/
def bootState {α : Type} (P : Params α) (items : List α) (tp : Nat) :
    HState α :=
  ⟨(Slots.init α tp).write (P.startPage - 1) items, 1,
    if P.cb.isSome then 1 else 0, 0, 0⟩

/-- Whether the initial `onProgress?.(1, totalPages)` call (line 98) throws. -/
def bootThrew {α : Type} (P : Params α) (tp : Nat) : Bool :=
  match P.cb with
  | some f => f 1 tp
  | none => false

/-- `paginationHarvest`, with the full internal state exposed.  `none` means the
returned promise never resolves (a worker run hangs); `some (.error e)` means
it rejects; `some (.ok fr)` means it resolves.  Steps in source order:
bootstrap validation, `totalPages` computation, `Array(totalPages)` (RangeError
on a negative length), bootstrap slot write, the unprotected initial
`onProgress` call, the `totalPages === 1` short circuit (whose return applies
`.flat().filter(Boolean)` — filtering items), the initial worker pass, the
retry loop, and the final `.filter(Boolean).flat()` assembly. -/
def paginationHarvestFull {α : Type} (P : Params α) :
    Option (Except HError (FullResult α)) :=
  match P.first with
  | none => some (.error .bootstrapFailed)
  | some fr =>
    match fr.data with
    | none => some (.error .invalidFirst)
    | some items =>
      let total := computedTotal fr
      if total < 0 then some (.error .rangeError)
      else
        let tp := total.toNat
        let g0 : HState α := bootState P items tp
        if bootThrew P tp then some (.error .callbackThrew)
        else if total = 1 then
          some (.ok ⟨⟨g0.slots.assemble.filter P.truthy, []⟩, g0, tp⟩)
        else
          match runWorker (wcfg P tp 0) (pageRange P.startPage tp) (P.scheds 0) g0 with
          | none => none
          | some (ws, g1) =>
            match retryLoop P tp P.maxRetries 1 ws.failed g1 with
            | none => none
            | some (failed, g2) =>
              some (.ok ⟨⟨g2.slots.assemble, failed⟩, g2, tp⟩)

/-- The caller-visible result of `paginationHarvest`. -/
def paginationHarvest {α : Type} (P : Params α) :
    Option (Except HError (HarvestResult α)) :=
  (paginationHarvestFull P).map (fun e => e.map (·.res))

/-- Page `p`'s slot (`allResults[p - 1]`). -/
def slotAt {α : Type} (g : HState α) (p : Nat) : Option (List α) :=
  g.slots.read (p - 1)

/-- A progress callback that never throws (also satisfied by an absent one). -/
def cbSafe {α : Type} (P : Params α) : Prop :=
  ∀ f, P.cb = some f → ∀ a b, f a b = false

/-! ### Basic slot-array lemmas -/

theorem updateAt_self {β : Type} (f : Nat → β) (j : Nat) (v : β) :
    updateAt f j v j = v := by
  simp [updateAt]

theorem updateAt_of_ne {β : Type} (f : Nat → β) (j : Nat) (v : β) {i : Nat}
    (h : i ≠ j) : updateAt f j v i = f i := by
  simp [updateAt, h]

theorem write_read_self {α : Type} (s : Slots α) (j : Nat) (v : List α) :
    (s.write j v).read j = some v := by
  simp [Slots.write, updateAt_self]

theorem write_read_of_ne {α : Type} (s : Slots α) (j : Nat) (v : List α)
    {i : Nat} (h : i ≠ j) : (s.write j v).read i = s.read i := by
  simp [Slots.write, updateAt_of_ne _ _ _ h]

theorem write_read_ne_none {α : Type} (s : Slots α) (j : Nat) (v : List α)
    {i : Nat} (h : s.read i ≠ none) : (s.write j v).read i ≠ none := by
  by_cases hij : i = j
  · subst hij; simp [write_read_self]
  · rw [write_read_of_ne _ _ _ hij]; exact h

/-! ### List helpers -/

theorem mem_of_mem_eraseIdx {l : List Nat} {k p : Nat}
    (h : p ∈ l.eraseIdx k) : p ∈ l := by
  rcases List.mem_eraseIdx_iff_getElem.1 h with ⟨j, hj, _, rfl⟩
  exact List.getElem_mem hj

theorem mem_eraseIdx_or_getD {l : List Nat} {k p : Nat}
    (hk : k < l.length) (h : p ∈ l) : p ∈ l.eraseIdx k ∨ l.getD k 0 = p := by
  rcases List.getElem_of_mem h with ⟨j, hj, rfl⟩
  by_cases hjk : j = k
  · subst hjk
    right
    exact List.getD_eq_getElem l 0 hj
  · left
    exact List.mem_eraseIdx_iff_getElem.2 ⟨j, hj, hjk, rfl⟩

theorem getD_mem_of_lt {l : List Nat} {k : Nat} (hk : k < l.length) :
    l.getD k 0 ∈ l := by
  rw [List.getD_eq_getElem l 0 hk]
  exact List.getElem_mem hk

theorem mem_pageRange {startPage tp p : Nat} :
    p ∈ pageRange startPage tp ↔ startPage + 1 ≤ p ∧ p ≤ tp := by
  unfold pageRange
  rw [List.mem_range'_1]
  omega

/-! ### Launch-loop lemmas -/

theorem launchAux_failed {α : Type} (C : WCfg α) (pages : List Nat) :
    ∀ (n : Nat) (s : WState), (launchAux C pages n s).failed = s.failed := by
  intro n
  induction n with
  | zero => intro s; rfl
  | succ n ih =>
      intro s
      rw [launchAux]
      split
      · rw [ih]
      · rfl

theorem launchAux_inflight_mem {α : Type} (C : WCfg α) (pages : List Nat) :
    ∀ (n : Nat) (s : WState) (p : Nat), p ∈ (launchAux C pages n s).inflight →
      p ∈ s.inflight ∨ p ∈ pages := by
  intro n
  induction n with
  | zero => intro s p h; exact Or.inl h
  | succ n ih =>
      intro s p h
      rw [launchAux] at h
      split at h
      · rename_i hg
        rcases ih _ p h with h' | h'
        · rcases List.mem_append.1 h' with h'' | h''
          · exact Or.inl h''
          · right
            rcases List.mem_singleton.1 h'' with rfl
            exact getD_mem_of_lt hg.2
        · exact Or.inr h'
      · exact Or.inl h

theorem launchAux_track {α : Type} (C : WCfg α) (pages : List Nat) :
    ∀ (n : Nat) (s : WState) (p : Nat),
      (p ∈ s.inflight ∨ p ∈ pages.drop s.ptr) →
      p ∈ (launchAux C pages n s).inflight ∨
        p ∈ pages.drop (launchAux C pages n s).ptr := by
  intro n
  induction n with
  | zero => intro s p h; exact h
  | succ n ih =>
      intro s p h
      rw [launchAux]
      split
      · rename_i hg
        refine ih _ p ?_
        rcases h with h' | h'
        · exact Or.inl (List.mem_append.2 (Or.inl h'))
        · rw [List.drop_eq_getElem_cons hg.2, List.mem_cons] at h'
          rcases h' with h'' | h''
          · refine Or.inl (List.mem_append.2 (Or.inr ?_))
            rw [List.mem_singleton, List.getD_eq_getElem pages 0 hg.2, h'']
          · exact Or.inr h''
      · exact h

theorem launchAux_bound {α : Type} (C : WCfg α) (pages : List Nat) :
    ∀ (n : Nat) (s : WState),
      s.inflight.length ≤ C.maxParallel.toNat →
      s.peak ≤ C.maxParallel.toNat →
      (launchAux C pages n s).inflight.length ≤ C.maxParallel.toNat ∧
        (launchAux C pages n s).peak ≤ C.maxParallel.toNat := by
  intro n
  induction n with
  | zero => intro s h1 h2; exact ⟨h1, h2⟩
  | succ n ih =>
      intro s h1 h2
      rw [launchAux]
      split
      · rename_i hg
        have hlt : s.inflight.length + 1 ≤ C.maxParallel.toNat := by omega
        refine ih _ ?_ ?_
        · simpa using hlt
        · simp only [max_le_iff]
          exact ⟨h2, hlt⟩
      · exact ⟨h1, h2⟩

theorem launchAux_of_nonpos {α : Type} (C : WCfg α) (pages : List Nat)
    (hC : C.maxParallel ≤ 0) :
    ∀ (n : Nat) (s : WState), launchAux C pages n s = s := by
  intro n
  induction n with
  | zero => intro s; rfl
  | succ n _ =>
      intro s
      rw [launchAux]
      split
      · rename_i hg
        exact absurd hg.1 (by omega)
      · rfl

theorem launch_failed {α : Type} (C : WCfg α) (pages : List Nat) (s : WState) :
    (launch C pages s).failed = s.failed :=
  launchAux_failed C pages _ s

theorem launch_inflight_mem {α : Type} (C : WCfg α) (pages : List Nat)
    (s : WState) (p : Nat) (h : p ∈ (launch C pages s).inflight) :
    p ∈ s.inflight ∨ p ∈ pages :=
  launchAux_inflight_mem C pages _ s p h

theorem launch_track {α : Type} (C : WCfg α) (pages : List Nat) (s : WState)
    (p : Nat) (h : p ∈ s.inflight ∨ p ∈ pages.drop s.ptr) :
    p ∈ (launch C pages s).inflight ∨
      p ∈ pages.drop (launch C pages s).ptr :=
  launchAux_track C pages _ s p h

theorem launch_bound {α : Type} (C : WCfg α) (pages : List Nat) (s : WState)
    (h1 : s.inflight.length ≤ C.maxParallel.toNat)
    (h2 : s.peak ≤ C.maxParallel.toNat) :
    (launch C pages s).inflight.length ≤ C.maxParallel.toNat ∧
      (launch C pages s).peak ≤ C.maxParallel.toNat :=
  launchAux_bound C pages _ s h1 h2

theorem launch_of_nonpos {α : Type} (C : WCfg α) (pages : List Nat)
    (s : WState) (hC : C.maxParallel ≤ 0) : launch C pages s = s :=
  launchAux_of_nonpos C pages hC _ s

/-! ### Settle-step lemmas -/

theorem settle_ptr {α : Type} (C : WCfg α) (s : WState) (g : HState α)
    (i : Nat) : (settle C s g i).1.ptr = s.ptr := by
  simp only [settle]
  split
  · rfl
  · split <;> rfl

theorem settle_peak {α : Type} (C : WCfg α) (s : WState) (g : HState α)
    (i : Nat) : (settle C s g i).1.peak = s.peak := by
  simp only [settle]
  split
  · rfl
  · split <;> rfl

theorem settle_inflight_len {α : Type} (C : WCfg α) (s : WState)
    (g : HState α) (i : Nat) :
    (settle C s g i).1.inflight.length ≤ s.inflight.length := by
  simp only [settle]
  split
  · exact le_refl _
  · split <;>
      · simp only [List.length_eraseIdx]
        split <;> omega

theorem settle_runs {α : Type} (C : WCfg α) (s : WState) (g : HState α)
    (i : Nat) : (settle C s g i).2.workerRuns = g.workerRuns := by
  simp only [settle]
  split
  · rfl
  · split <;> rfl

theorem settle_failed_super {α : Type} (C : WCfg α) (s : WState)
    (g : HState α) (i : Nat) {p : Nat} (hp : p ∈ s.failed) :
    p ∈ (settle C s g i).1.failed := by
  simp only [settle]
  split
  · exact hp
  · split <;> exact List.mem_append.2 (Or.inl hp)

theorem settle_failed_sub {α : Type} (C : WCfg α) (s : WState)
    (g : HState α) (i : Nat) {p : Nat} (hp : p ∈ (settle C s g i).1.failed) :
    p ∈ s.failed ∨ p ∈ s.inflight := by
  by_cases h0 : s.inflight.length = 0
  · simp only [settle, if_pos h0] at hp
    exact Or.inl hp
  · have hk : i % s.inflight.length < s.inflight.length :=
      Nat.mod_lt _ (Nat.pos_of_ne_zero h0)
    simp only [settle, if_neg h0] at hp
    split at hp
    · rcases List.mem_append.1 hp with h | h
      · exact Or.inl h
      · split at h
        · rcases List.mem_singleton.1 h with rfl
          exact Or.inr (getD_mem_of_lt hk)
        · simp at h
    · rcases List.mem_append.1 hp with h | h
      · exact Or.inl h
      · rcases List.mem_singleton.1 h with rfl
        exact Or.inr (getD_mem_of_lt hk)

theorem settle_inflight_sub {α : Type} (C : WCfg α) (s : WState)
    (g : HState α) (i : Nat) {p : Nat}
    (hp : p ∈ (settle C s g i).1.inflight) : p ∈ s.inflight := by
  by_cases h0 : s.inflight.length = 0
  · simpa only [settle, if_pos h0] using hp
  · simp only [settle, if_neg h0] at hp
    split at hp <;> exact mem_of_mem_eraseIdx hp

theorem settle_fail_track {α : Type} (C : WCfg α) (s : WState) (g : HState α)
    (i : Nat) {p : Nat} (hf : C.fetchPage p = .failure) (hp : p ∈ s.inflight) :
    p ∈ (settle C s g i).1.inflight ∨ p ∈ (settle C s g i).1.failed := by
  have h0 : s.inflight.length ≠ 0 := by
    intro h
    rw [List.length_eq_zero] at h
    simp [h] at hp
  have hk : i % s.inflight.length < s.inflight.length :=
    Nat.mod_lt _ (Nat.pos_of_ne_zero h0)
  rcases mem_eraseIdx_or_getD hk hp with he | he
  · simp only [settle, if_neg h0]
    split <;> exact Or.inl he
  · simp only [settle, if_neg h0]
    split
    · rename_i items hm
      rw [he, hf] at hm
      exact absurd hm (by simp)
    · right
      rw [he]
      exact List.mem_append.2 (Or.inr (List.mem_singleton.2 rfl))

theorem settle_succ_track {α : Type} (C : WCfg α) (s : WState) (g : HState α)
    (i : Nat) {p : Nat} {its : List α} (hf : C.fetchPage p = .success its)
    (hp : p ∈ s.inflight) :
    p ∈ (settle C s g i).1.inflight ∨
      (settle C s g i).2.slots.read (p - 1) = some its := by
  have h0 : s.inflight.length ≠ 0 := by
    intro h
    rw [List.length_eq_zero] at h
    simp [h] at hp
  have hk : i % s.inflight.length < s.inflight.length :=
    Nat.mod_lt _ (Nat.pos_of_ne_zero h0)
  rcases mem_eraseIdx_or_getD hk hp with he | he
  · simp only [settle, if_neg h0]
    split <;> exact Or.inl he
  · simp only [settle, if_neg h0]
    split
    · rename_i items' hm
      rw [he, hf] at hm
      right
      cases hm
      rw [he, write_read_self]
    · rename_i hm
      rw [he, hf] at hm
      exact absurd hm (by simp)

theorem settle_slots_pres {α : Type} (C : WCfg α) (s : WState) (g : HState α)
    (j : Nat) {i : Nat}
    (h : ∀ q ∈ s.inflight, q - 1 = i → C.fetchPage q = .failure) :
    (settle C s g j).2.slots.read i = g.slots.read i := by
  by_cases h0 : s.inflight.length = 0
  · simp only [settle, if_pos h0]
  · have hk : j % s.inflight.length < s.inflight.length :=
      Nat.mod_lt _ (Nat.pos_of_ne_zero h0)
    simp only [settle, if_neg h0]
    split
    · rename_i items hm
      have hne : i ≠ s.inflight.getD (j % s.inflight.length) 0 - 1 := by
        intro hiq
        have := h _ (getD_mem_of_lt hk) hiq.symm
        rw [this] at hm
        exact absurd hm (by simp)
      exact write_read_of_ne _ _ _ hne
    · rfl

theorem settle_slots_mono {α : Type} (C : WCfg α) (s : WState) (g : HState α)
    (j : Nat) {i : Nat} (h : g.slots.read i ≠ none) :
    (settle C s g j).2.slots.read i ≠ none := by
  simp only [settle]
  split
  · exact h
  · split
    · exact write_read_ne_none _ _ _ h
    · exact h

theorem settle_failed_from {α : Type} (C : WCfg α) (s : WState) (g : HState α)
    (i : Nat) (hcb : ∀ f, C.cb = some f → ∀ a b, f a b = false) {p : Nat}
    (hp : p ∈ (settle C s g i).1.failed) :
    p ∈ s.failed ∨ C.fetchPage p = .failure := by
  by_cases h0 : s.inflight.length = 0
  · simp only [settle, if_pos h0] at hp
    exact Or.inl hp
  · have hk : i % s.inflight.length < s.inflight.length :=
      Nat.mod_lt _ (Nat.pos_of_ne_zero h0)
    simp only [settle, if_neg h0] at hp
    split at hp
    · rcases List.mem_append.1 hp with h | h
      · exact Or.inl h
      · exfalso
        rcases hc : C.cb with _ | f
        · rw [hc] at h
          simp at h
        · rw [hc] at h
          simp [hcb f hc] at h
    · rename_i hm
      rcases List.mem_append.1 hp with h | h
      · exact Or.inl h
      · rcases List.mem_singleton.1 h with rfl
        exact Or.inr hm

theorem settle_cb_count {α : Type} (C : WCfg α) (s : WState) (g : HState α)
    (i : Nat) (hcb : C.cb.isSome = true) :
    (settle C s g i).2.cbCalls + g.succCount =
      g.cbCalls + (settle C s g i).2.succCount := by
  simp only [settle]
  split
  · rfl
  · split
    · simp [hcb]
      omega
    · rfl

/-! ### Worker event-loop lemmas -/

theorem workerGo_failed_sub {α : Type} (C : WCfg α) (pages : List Nat) :
    ∀ (fuel : Nat) (sched : List Nat) (s : WState) (g : HState α)
      (ws : WState) (gf : HState α),
      workerGo C pages fuel sched s g = some (ws, gf) →
      ∀ p ∈ ws.failed, p ∈ s.failed ∨ p ∈ s.inflight ∨ p ∈ pages := by
  intro fuel
  induction fuel with
  | zero =>
      intro sched s g ws gf h
      exact absurd h (by simp [workerGo])
  | succ fuel ih =>
      intro sched s g ws gf h p hp
      rw [workerGo] at h
      split at h
      · rw [Option.some.injEq, Prod.mk.injEq] at h
        rcases h with ⟨rfl, rfl⟩
        exact Or.inl hp
      · split at h
        · exact absurd h (by simp)
        · rcases ih _ _ _ _ _ h p hp with h' | h' | h'
          · rw [launch_failed] at h'
            rcases settle_failed_sub C s g _ h' with h'' | h''
            · exact Or.inl h''
            · exact Or.inr (Or.inl h'')
          · rcases launch_inflight_mem C pages _ p h' with h'' | h''
            · exact Or.inr (Or.inl (settle_inflight_sub C s g _ h''))
            · exact Or.inr (Or.inr h'')
          · exact Or.inr (Or.inr h')

theorem workerGo_fail_mem {α : Type} (C : WCfg α) (pages : List Nat) :
    ∀ (fuel : Nat) (sched : List Nat) (s : WState) (g : HState α)
      (ws : WState) (gf : HState α),
      workerGo C pages fuel sched s g = some (ws, gf) →
      ∀ p : Nat, C.fetchPage p = .failure →
        (p ∈ s.failed ∨ p ∈ s.inflight ∨ p ∈ pages.drop s.ptr) →
        p ∈ ws.failed := by
  intro fuel
  induction fuel with
  | zero =>
      intro sched s g ws gf h
      exact absurd h (by simp [workerGo])
  | succ fuel ih =>
      intro sched s g ws gf h p hf hp
      rw [workerGo] at h
      split at h
      · rename_i hres
        rw [Option.some.injEq, Prod.mk.injEq] at h
        rcases h with ⟨rfl, rfl⟩
        rcases hp with h' | h' | h'
        · exact h'
        · rw [hres.2] at h'
          simp at h'
        · rw [hres.1, List.drop_length] at h'
          simp at h'
      · split at h
        · exact absurd h (by simp)
        · refine ih _ _ _ _ _ h p hf ?_
          rcases hp with h' | h' | h'
          · left
            rw [launch_failed]
            exact settle_failed_super C s g _ h'
          · rcases settle_fail_track C s g (sched.headD 0) hf h' with h'' | h''
            · rcases launch_track C pages _ p (Or.inl h'') with h3 | h3
              · exact Or.inr (Or.inl h3)
              · exact Or.inr (Or.inr h3)
            · left
              rw [launch_failed]
              exact h''
          · have h'' : p ∈ pages.drop (settle C s g (sched.headD 0)).1.ptr := by
              rw [settle_ptr]
              exact h'
            rcases launch_track C pages _ p (Or.inr h'') with h3 | h3
            · exact Or.inr (Or.inl h3)
            · exact Or.inr (Or.inr h3)

theorem workerGo_slots_pres {α : Type} (C : WCfg α) (pages : List Nat) :
    ∀ (fuel : Nat) (sched : List Nat) (s : WState) (g : HState α)
      (ws : WState) (gf : HState α),
      workerGo C pages fuel sched s g = some (ws, gf) →
      ∀ i : Nat,
        (∀ q, (q ∈ s.inflight ∨ q ∈ pages) → q - 1 = i →
          C.fetchPage q = .failure) →
        gf.slots.read i = g.slots.read i := by
  intro fuel
  induction fuel with
  | zero =>
      intro sched s g ws gf h
      exact absurd h (by simp [workerGo])
  | succ fuel ih =>
      intro sched s g ws gf h i hq
      rw [workerGo] at h
      split at h
      · rw [Option.some.injEq, Prod.mk.injEq] at h
        rcases h with ⟨rfl, rfl⟩
        rfl
      · split at h
        · exact absurd h (by simp)
        · have hstep :
              (settle C s g (sched.headD 0)).2.slots.read i = g.slots.read i :=
            settle_slots_pres C s g _ (fun q hql => hq q (Or.inl hql))
          have hrec := ih _ _ _ _ _ h i ?_
          · rw [hrec, hstep]
          · intro q hql hqi
            refine hq q ?_ hqi
            rcases hql with h' | h'
            · rcases launch_inflight_mem C pages _ q h' with h'' | h''
              · exact Or.inl (settle_inflight_sub C s g _ h'')
              · exact Or.inr h''
            · exact Or.inr h'

theorem workerGo_slots_mono {α : Type} (C : WCfg α) (pages : List Nat) :
    ∀ (fuel : Nat) (sched : List Nat) (s : WState) (g : HState α)
      (ws : WState) (gf : HState α),
      workerGo C pages fuel sched s g = some (ws, gf) →
      ∀ i : Nat, g.slots.read i ≠ none → gf.slots.read i ≠ none := by
  intro fuel
  induction fuel with
  | zero =>
      intro sched s g ws gf h
      exact absurd h (by simp [workerGo])
  | succ fuel ih =>
      intro sched s g ws gf h i hi
      rw [workerGo] at h
      split at h
      · rw [Option.some.injEq, Prod.mk.injEq] at h
        rcases h with ⟨rfl, rfl⟩
        exact hi
      · split at h
        · exact absurd h (by simp)
        · exact ih _ _ _ _ _ h i (settle_slots_mono C s g _ hi)

theorem workerGo_succ_written {α : Type} (C : WCfg α) (pages : List Nat) :
    ∀ (fuel : Nat) (sched : List Nat) (s : WState) (g : HState α)
      (ws : WState) (gf : HState α),
      workerGo C pages fuel sched s g = some (ws, gf) →
      ∀ (p : Nat) (its : List α), C.fetchPage p = .success its →
        (p ∈ s.inflight ∨ p ∈ pages.drop s.ptr) →
        gf.slots.read (p - 1) ≠ none := by
  intro fuel
  induction fuel with
  | zero =>
      intro sched s g ws gf h
      exact absurd h (by simp [workerGo])
  | succ fuel ih =>
      intro sched s g ws gf h p its hf hp
      rw [workerGo] at h
      split at h
      · rename_i hres
        exfalso
        rcases hp with h' | h'
        · rw [hres.2] at h'
          simp at h'
        · rw [hres.1, List.drop_length] at h'
          simp at h'
      · split at h
        · exact absurd h (by simp)
        · rcases hp with h' | h'
          · rcases settle_succ_track C s g (sched.headD 0) hf h' with h'' | h''
            · refine ih _ _ _ _ _ h p its hf ?_
              exact launch_track C pages _ p (Or.inl h'')
            · refine workerGo_slots_mono C pages _ _ _ _ _ _ h (p - 1) ?_
              rw [h'']
              simp
          · refine ih _ _ _ _ _ h p its hf ?_
            refine launch_track C pages _ p (Or.inr ?_)
            rw [settle_ptr]
            exact h'

theorem workerGo_cb_count {α : Type} (C : WCfg α) (pages : List Nat)
    (hcb : C.cb.isSome = true) :
    ∀ (fuel : Nat) (sched : List Nat) (s : WState) (g : HState α)
      (ws : WState) (gf : HState α),
      workerGo C pages fuel sched s g = some (ws, gf) →
      gf.cbCalls + g.succCount = g.cbCalls + gf.succCount := by
  intro fuel
  induction fuel with
  | zero =>
      intro sched s g ws gf h
      exact absurd h (by simp [workerGo])
  | succ fuel ih =>
      intro sched s g ws gf h
      rw [workerGo] at h
      split at h
      · rw [Option.some.injEq, Prod.mk.injEq] at h
        rcases h with ⟨rfl, rfl⟩
        rfl
      · split at h
        · exact absurd h (by simp)
        · have h1 := settle_cb_count C s g (sched.headD 0) hcb
          have h2 := ih _ _ _ _ _ h
          omega

theorem workerGo_runs {α : Type} (C : WCfg α) (pages : List Nat) :
    ∀ (fuel : Nat) (sched : List Nat) (s : WState) (g : HState α)
      (ws : WState) (gf : HState α),
      workerGo C pages fuel sched s g = some (ws, gf) →
      gf.workerRuns = g.workerRuns := by
  intro fuel
  induction fuel with
  | zero =>
      intro sched s g ws gf h
      exact absurd h (by simp [workerGo])
  | succ fuel ih =>
      intro sched s g ws gf h
      rw [workerGo] at h
      split at h
      · rw [Option.some.injEq, Prod.mk.injEq] at h
        rcases h with ⟨rfl, rfl⟩
        rfl
      · split at h
        · exact absurd h (by simp)
        · rw [ih _ _ _ _ _ h, settle_runs]

theorem workerGo_failed_from {α : Type} (C : WCfg α) (pages : List Nat)
    (hcb : ∀ f, C.cb = some f → ∀ a b, f a b = false) :
    ∀ (fuel : Nat) (sched : List Nat) (s : WState) (g : HState α)
      (ws : WState) (gf : HState α),
      workerGo C pages fuel sched s g = some (ws, gf) →
      ∀ p ∈ ws.failed, p ∈ s.failed ∨ C.fetchPage p = .failure := by
  intro fuel
  induction fuel with
  | zero =>
      intro sched s g ws gf h
      exact absurd h (by simp [workerGo])
  | succ fuel ih =>
      intro sched s g ws gf h p hp
      rw [workerGo] at h
      split at h
      · rw [Option.some.injEq, Prod.mk.injEq] at h
        rcases h with ⟨rfl, rfl⟩
        exact Or.inl hp
      · split at h
        · exact absurd h (by simp)
        · rcases ih _ _ _ _ _ h p hp with h' | h'
          · rw [launch_failed] at h'
            exact settle_failed_from C s g _ hcb h'
          · exact Or.inr h'

theorem workerGo_peak {α : Type} (C : WCfg α) (pages : List Nat) :
    ∀ (fuel : Nat) (sched : List Nat) (s : WState) (g : HState α)
      (ws : WState) (gf : HState α),
      workerGo C pages fuel sched s g = some (ws, gf) →
      s.inflight.length ≤ C.maxParallel.toNat →
      s.peak ≤ C.maxParallel.toNat →
      ws.peak ≤ C.maxParallel.toNat := by
  intro fuel
  induction fuel with
  | zero =>
      intro sched s g ws gf h
      exact absurd h (by simp [workerGo])
  | succ fuel ih =>
      intro sched s g ws gf h h1 h2
      rw [workerGo] at h
      split at h
      · rw [Option.some.injEq, Prod.mk.injEq] at h
        rcases h with ⟨rfl, rfl⟩
        exact h2
      · split at h
        · exact absurd h (by simp)
        · have hl := settle_inflight_len C s g (sched.headD 0)
          have hpk := settle_peak C s g (sched.headD 0)
          have hb := launch_bound C pages (settle C s g (sched.headD 0)).1
            (le_trans hl h1) (by rw [hpk]; exact h2)
          exact ih _ _ _ _ _ h hb.1 hb.2

/-! ### One `parallelWorker` call -/

theorem runWorker_failed_sub {α : Type} {C : WCfg α} {pages sched : List Nat}
    {g : HState α} {ws : WState} {gf : HState α}
    (h : runWorker C pages sched g = some (ws, gf)) :
    ∀ p ∈ ws.failed, p ∈ pages := by
  intro p hp
  rcases workerGo_failed_sub C pages _ _ _ _ _ _ h p hp with h' | h' | h'
  · rw [launch_failed] at h'
    simp [initW] at h'
  · rcases launch_inflight_mem C pages initW p h' with h'' | h''
    · simp [initW] at h''
    · exact h''
  · exact h'

theorem runWorker_fail_mem {α : Type} {C : WCfg α} {pages sched : List Nat}
    {g : HState α} {ws : WState} {gf : HState α}
    (h : runWorker C pages sched g = some (ws, gf)) {p : Nat}
    (hf : C.fetchPage p = .failure) (hp : p ∈ pages) : p ∈ ws.failed := by
  refine workerGo_fail_mem C pages _ _ _ _ _ _ h p hf ?_
  have : p ∈ initW.inflight ∨ p ∈ pages.drop initW.ptr := by
    right
    simpa [initW] using hp
  rcases launch_track C pages initW p this with h' | h'
  · exact Or.inr (Or.inl h')
  · exact Or.inr (Or.inr h')

theorem runWorker_slots_pres {α : Type} {C : WCfg α} {pages sched : List Nat}
    {g : HState α} {ws : WState} {gf : HState α}
    (h : runWorker C pages sched g = some (ws, gf)) {i : Nat}
    (hq : ∀ q ∈ pages, q - 1 = i → C.fetchPage q = .failure) :
    gf.slots.read i = g.slots.read i := by
  refine workerGo_slots_pres C pages _ _ _ _ _ _ h i ?_
  intro q hql hqi
  rcases hql with h' | h'
  · rcases launch_inflight_mem C pages initW q h' with h'' | h''
    · simp [initW] at h''
    · exact hq q h'' hqi
  · exact hq q h' hqi

theorem runWorker_slots_mono {α : Type} {C : WCfg α} {pages sched : List Nat}
    {g : HState α} {ws : WState} {gf : HState α}
    (h : runWorker C pages sched g = some (ws, gf)) {i : Nat}
    (hi : g.slots.read i ≠ none) : gf.slots.read i ≠ none :=
  workerGo_slots_mono C pages _ _ _ _ _ _ h i hi

theorem runWorker_succ_written {α : Type} {C : WCfg α} {pages sched : List Nat}
    {g : HState α} {ws : WState} {gf : HState α}
    (h : runWorker C pages sched g = some (ws, gf)) {p : Nat} {its : List α}
    (hf : C.fetchPage p = .success its) (hp : p ∈ pages) :
    gf.slots.read (p - 1) ≠ none := by
  refine workerGo_succ_written C pages _ _ _ _ _ _ h p its hf ?_
  refine launch_track C pages initW p ?_
  right
  simpa [initW] using hp

theorem runWorker_cb_count {α : Type} {C : WCfg α} {pages sched : List Nat}
    {g : HState α} {ws : WState} {gf : HState α}
    (hcb : C.cb.isSome = true)
    (h : runWorker C pages sched g = some (ws, gf)) :
    gf.cbCalls + g.succCount = g.cbCalls + gf.succCount := by
  have h' : workerGo C pages (pages.length + 1) sched (launch C pages initW)
      { g with workerRuns := g.workerRuns + 1 } = some (ws, gf) := h
  have h2 := workerGo_cb_count C pages hcb _ _ _ _ _ _ h'
  exact h2

theorem runWorker_runs {α : Type} {C : WCfg α} {pages sched : List Nat}
    {g : HState α} {ws : WState} {gf : HState α}
    (h : runWorker C pages sched g = some (ws, gf)) :
    gf.workerRuns = g.workerRuns + 1 := by
  have h' : workerGo C pages (pages.length + 1) sched (launch C pages initW)
      { g with workerRuns := g.workerRuns + 1 } = some (ws, gf) := h
  have h2 := workerGo_runs C pages _ _ _ _ _ _ h'
  exact h2

theorem runWorker_failed_from {α : Type} {C : WCfg α} {pages sched : List Nat}
    {g : HState α} {ws : WState} {gf : HState α}
    (hcb : ∀ f, C.cb = some f → ∀ a b, f a b = false)
    (h : runWorker C pages sched g = some (ws, gf)) {p : Nat}
    (hp : p ∈ ws.failed) : C.fetchPage p = .failure := by
  rcases workerGo_failed_from C pages hcb _ _ _ _ _ _ h p hp with h' | h'
  · rw [launch_failed] at h'
    simp [initW] at h'
  · exact h'

theorem runWorker_peak {α : Type} {C : WCfg α} {pages sched : List Nat}
    {g : HState α} {ws : WState} {gf : HState α}
    (h : runWorker C pages sched g = some (ws, gf)) :
    ws.peak ≤ C.maxParallel.toNat := by
  have hb := launch_bound C pages initW (by simp [initW]) (by simp [initW])
  exact workerGo_peak C pages _ _ _ _ _ _ h hb.1 hb.2

/-! ### Retry-loop lemmas -/

theorem retryLoop_failed_sub {α : Type} (P : Params α) (tp : Nat) :
    ∀ (b round : Nat) (failed : List Nat) (g : HState α)
      (failed' : List Nat) (g' : HState α),
      retryLoop P tp b round failed g = some (failed', g') →
      ∀ p ∈ failed', p ∈ failed := by
  intro b
  induction b with
  | zero =>
      intro round failed g failed' g' h p hp
      rw [retryLoop, Option.some.injEq, Prod.mk.injEq] at h
      rcases h with ⟨rfl, rfl⟩
      exact hp
  | succ b ih =>
      intro round failed g failed' g' h p hp
      rw [retryLoop] at h
      split at h
      · rw [Option.some.injEq, Prod.mk.injEq] at h
        rcases h with ⟨rfl, rfl⟩
        exact hp
      · split at h
        · exact absurd h (by simp)
        · rename_i ws g1 hr
          exact runWorker_failed_sub hr p (ih _ _ _ _ _ h p hp)

theorem retryLoop_fail_stays {α : Type} (P : Params α) (tp : Nat) {p : Nat}
    (hf : ∀ r, P.fetch r p = .failure) :
    ∀ (b round : Nat) (failed : List Nat) (g : HState α)
      (failed' : List Nat) (g' : HState α),
      retryLoop P tp b round failed g = some (failed', g') →
      p ∈ failed → p ∈ failed' := by
  intro b
  induction b with
  | zero =>
      intro round failed g failed' g' h hp
      rw [retryLoop, Option.some.injEq, Prod.mk.injEq] at h
      rcases h with ⟨rfl, rfl⟩
      exact hp
  | succ b ih =>
      intro round failed g failed' g' h hp
      rw [retryLoop] at h
      split at h
      · rw [Option.some.injEq, Prod.mk.injEq] at h
        rcases h with ⟨rfl, rfl⟩
        exact hp
      · split at h
        · exact absurd h (by simp)
        · rename_i ws g1 hr
          exact ih _ _ _ _ _ h (runWorker_fail_mem hr (hf round) hp)

theorem retryLoop_slots_pres {α : Type} (P : Params α) (tp : Nat) {p : Nat}
    (hf : ∀ r, P.fetch r p = .failure) (hp1 : 1 ≤ p) :
    ∀ (b round : Nat) (failed : List Nat) (g : HState α)
      (failed' : List Nat) (g' : HState α),
      (∀ q ∈ failed, 1 ≤ q) →
      retryLoop P tp b round failed g = some (failed', g') →
      g'.slots.read (p - 1) = g.slots.read (p - 1) := by
  intro b
  induction b with
  | zero =>
      intro round failed g failed' g' _ h
      rw [retryLoop, Option.some.injEq, Prod.mk.injEq] at h
      rcases h with ⟨_, rfl⟩
      rfl
  | succ b ih =>
      intro round failed g failed' g' hall h
      rw [retryLoop] at h
      split at h
      · rw [Option.some.injEq, Prod.mk.injEq] at h
        rcases h with ⟨_, rfl⟩
        rfl
      · split at h
        · exact absurd h (by simp)
        · rename_i ws g1 hr
          have hstep : g1.slots.read (p - 1) = g.slots.read (p - 1) := by
            refine runWorker_slots_pres hr ?_
            intro q hq hqi
            have : q = p := by
              have := hall q hq
              omega
            rw [this]
            exact hf round
          have hall' : ∀ q ∈ ws.failed, 1 ≤ q := fun q hq =>
            hall q (runWorker_failed_sub hr q hq)
          rw [ih _ _ _ _ _ hall' h, hstep]

theorem retryLoop_slots_mono {α : Type} (P : Params α) (tp : Nat) {i : Nat} :
    ∀ (b round : Nat) (failed : List Nat) (g : HState α)
      (failed' : List Nat) (g' : HState α),
      g.slots.read i ≠ none →
      retryLoop P tp b round failed g = some (failed', g') →
      g'.slots.read i ≠ none := by
  intro b
  induction b with
  | zero =>
      intro round failed g failed' g' hi h
      rw [retryLoop, Option.some.injEq, Prod.mk.injEq] at h
      rcases h with ⟨_, rfl⟩
      exact hi
  | succ b ih =>
      intro round failed g failed' g' hi h
      rw [retryLoop] at h
      split at h
      · rw [Option.some.injEq, Prod.mk.injEq] at h
        rcases h with ⟨_, rfl⟩
        exact hi
      · split at h
        · exact absurd h (by simp)
        · rename_i ws g1 hr
          exact ih _ _ _ _ _ (runWorker_slots_mono hr hi) h

theorem retryLoop_cb_count {α : Type} (P : Params α) (tp : Nat)
    (hcb : P.cb.isSome = true) :
    ∀ (b round : Nat) (failed : List Nat) (g : HState α)
      (failed' : List Nat) (g' : HState α),
      retryLoop P tp b round failed g = some (failed', g') →
      g'.cbCalls + g.succCount = g.cbCalls + g'.succCount := by
  intro b
  induction b with
  | zero =>
      intro round failed g failed' g' h
      rw [retryLoop, Option.some.injEq, Prod.mk.injEq] at h
      rcases h with ⟨_, rfl⟩
      rfl
  | succ b ih =>
      intro round failed g failed' g' h
      rw [retryLoop] at h
      split at h
      · rw [Option.some.injEq, Prod.mk.injEq] at h
        rcases h with ⟨_, rfl⟩
        rfl
      · split at h
        · exact absurd h (by simp)
        · rename_i ws g1 hr
          have h1 := runWorker_cb_count (C := wcfg P tp round) hcb hr
          have h2 := ih _ _ _ _ _ h
          omega

theorem retryLoop_runs {α : Type} (P : Params α) (tp : Nat) :
    ∀ (b round : Nat) (failed : List Nat) (g : HState α)
      (failed' : List Nat) (g' : HState α),
      retryLoop P tp b round failed g = some (failed', g') →
      g'.workerRuns ≤ g.workerRuns + b := by
  intro b
  induction b with
  | zero =>
      intro round failed g failed' g' h
      rw [retryLoop, Option.some.injEq, Prod.mk.injEq] at h
      rcases h with ⟨_, rfl⟩
      exact le_refl _
  | succ b ih =>
      intro round failed g failed' g' h
      rw [retryLoop] at h
      split at h
      · rw [Option.some.injEq, Prod.mk.injEq] at h
        rcases h with ⟨_, rfl⟩
        omega
      · split at h
        · exact absurd h (by simp)
        · rename_i ws g1 hr
          have h1 := runWorker_runs hr
          have h2 := ih _ _ _ _ _ h
          omega

theorem retryLoop_inv {α : Type} (P : Params α) (tp : Nat) (hcb : cbSafe P) :
    ∀ (b round : Nat) (failed : List Nat) (g : HState α)
      (failed' : List Nat) (g' : HState α),
      (∀ p, p ∈ failed ↔
        (P.startPage + 1 ≤ p ∧ p ≤ tp ∧ g.slots.read (p - 1) = none)) →
      retryLoop P tp b round failed g = some (failed', g') →
      ∀ p, p ∈ failed' ↔
        (P.startPage + 1 ≤ p ∧ p ≤ tp ∧ g'.slots.read (p - 1) = none) := by
  intro b
  induction b with
  | zero =>
      intro round failed g failed' g' hinv h
      rw [retryLoop, Option.some.injEq, Prod.mk.injEq] at h
      rcases h with ⟨rfl, rfl⟩
      exact hinv
  | succ b ih =>
      intro round failed g failed' g' hinv h
      rw [retryLoop] at h
      split at h
      · rw [Option.some.injEq, Prod.mk.injEq] at h
        rcases h with ⟨rfl, rfl⟩
        exact hinv
      · split at h
        · exact absurd h (by simp)
        · rename_i ws g1 hr
          refine ih _ _ _ _ _ ?_ h
          intro p
          constructor
          · intro hp
            have hpf : p ∈ failed := runWorker_failed_sub hr p hp
            have hbounds := (hinv p).1 hpf
            refine ⟨hbounds.1, hbounds.2.1, ?_⟩
            have hpres : g1.slots.read (p - 1) = g.slots.read (p - 1) := by
              refine runWorker_slots_pres hr ?_
              intro q hq hqi
              have hq1 : P.startPage + 1 ≤ q := ((hinv q).1 hq).1
              have : q = p := by omega
              rw [this]
              exact runWorker_failed_from (fun f hf a b => hcb f hf a b) hr hp
            rw [hpres]
            exact hbounds.2.2
          · rintro ⟨hb1, hb2, hb3⟩
            have hg : g.slots.read (p - 1) = none := by
              by_contra hne
              exact runWorker_slots_mono hr hne hb3
            have hpf : p ∈ failed := (hinv p).2 ⟨hb1, hb2, hg⟩
            cases hout : P.fetch round p with
            | success its => exact absurd hb3 (runWorker_succ_written hr hout hpf)
            | failure => exact runWorker_fail_mem hr hout hpf

/-! ### Dissecting a resolved harvest -/

theorem harvestFull_ok_elim {α : Type} {P : Params α} {fres : FullResult α}
    (h : paginationHarvestFull P = some (.ok fres)) :
    ∃ fr items, P.first = some fr ∧ fr.data = some items ∧
      ¬ computedTotal fr < 0 ∧ fres.tp = (computedTotal fr).toNat ∧
      ((computedTotal fr = 1 ∧
          fres.res =
            ⟨(bootState P items fres.tp).slots.assemble.filter P.truthy, []⟩ ∧
          fres.state = bootState P items fres.tp) ∨
        (computedTotal fr ≠ 1 ∧
          ∃ ws g1,
            runWorker (wcfg P fres.tp 0) (pageRange P.startPage fres.tp)
                (P.scheds 0) (bootState P items fres.tp) = some (ws, g1) ∧
            retryLoop P fres.tp P.maxRetries 1 ws.failed g1 =
              some (fres.res.failedPages, fres.state) ∧
            fres.res.data = fres.state.slots.assemble)) := by
  simp only [paginationHarvestFull] at h
  split at h
  · exact absurd h (by simp)
  · rename_i fr hfr
    split at h
    · exact absurd h (by simp)
    · rename_i items hitems
      split at h
      · exact absurd h (by simp)
      · rename_i hneg
        split at h
        · exact absurd h (by simp)
        · rename_i hthrew
          split at h
          · rename_i h1
            rw [Option.some.injEq, Except.ok.injEq] at h
            subst h
            exact ⟨fr, items, hfr, hitems, hneg, rfl,
              Or.inl ⟨h1, rfl, rfl⟩⟩
          · rename_i h1
            split at h
            · exact absurd h (by simp)
            · rename_i ws g1 hws
              split at h
              · exact absurd h (by simp)
              · rename_i failed g2 hrl
                rw [Option.some.injEq, Except.ok.injEq] at h
                subst h
                exact ⟨fr, items, hfr, hitems, hneg, rfl,
                  Or.inr ⟨h1, ws, g1, hws, hrl, rfl⟩⟩

/-! ### Concrete harvest instances -/

/-- A settle schedule that always picks the first in-flight fetch. -/
def exScheds : Nat → List Nat := fun _ => [0, 0, 0, 0, 0, 0, 0, 0]

/-- JS truthiness of a number: falsy exactly at `0`. -/
def exTruthy : Int → Bool := fun x => decide (x ≠ 0)

/-- Bootstrap `{data: [10], totalPages: 2}`; every fetch succeeds with `[20]`;
`onProgress` throws on every invocation. -/
def throwingCbHarvest : Params Int :=
  ⟨some ⟨some [10], some 2⟩, fun _ _ => .success [20], 1, 10, 2,
   some (fun _ _ => true), exTruthy, exScheds⟩

/-- Same harvest, but `onProgress` throws from its second invocation on (so the
bootstrap call at line 98 survives and the throw happens inside the worker's
`then` handler). -/
def lateThrowCbHarvest : Params Int :=
  ⟨some ⟨some [10], some 2⟩, fun _ _ => .success [20], 1, 10, 2,
   some (fun n _ => decide (2 ≤ n)), exTruthy, exScheds⟩

/-- Bootstrap `{data: [10], totalPages: 2}`; page 2 fails in the initial pass
(round 0) and succeeds on the first retry; a benign callback is installed. -/
def retriedPageHarvest : Params Int :=
  ⟨some ⟨some [10], some 2⟩, fun r _ => if r = 0 then .failure else .success [20],
   1, 10, 2, some (fun _ _ => false), exTruthy, exScheds⟩

/-- Bootstrap `{data: [10], totalPages: 3}`; page 3 fails in every round,
page 2 succeeds. -/
def alwaysFailPage3Harvest : Params Int :=
  ⟨some ⟨some [10], some 3⟩, fun _ p => if p = 3 then .failure else .success [20],
   1, 10, 2, none, exTruthy, exScheds⟩

/-- Bootstrap reports `totalPages: -4` (a negative total). -/
def negativeTotalHarvest : Params Int :=
  ⟨some ⟨some [7], some (-4)⟩, fun _ _ => .success [1], 1, 10, 2, none,
   exTruthy, exScheds⟩

/-- Bootstrap reports `totalPages: -3` (a negative total). -/
def negativeTotalHarvest3 : Params Int :=
  ⟨some ⟨some [7], some (-3)⟩, fun _ _ => .success [1], 1, 10, 2, none,
   exTruthy, exScheds⟩

/-- Single-page harvest whose bootstrap items `[0, 1]` contain the falsy
number `0`. -/
def falsyItemsHarvest : Params Int :=
  ⟨some ⟨some [0, 1], some 1⟩, fun _ _ => .success [5], 1, 10, 2, none,
   exTruthy, exScheds⟩

/-- `startPage = 2`, bootstrap `{data: [5], totalPages: 3}`, every fetch
succeeds — so page 1 is never requested and its slot stays empty. -/
def startPage2Harvest : Params Int :=
  ⟨some ⟨some [5], some 3⟩, fun _ _ => .success [6], 2, 10, 2, none,
   exTruthy, exScheds⟩

/-- A worker configuration with cap 2 over three always-succeeding pages. -/
def peakCfg : WCfg Int := ⟨fun _ => .success [1], 2, none, 4⟩

/-- A shared state to feed concrete worker runs. -/
def idleState : HState Int := ⟨Slots.init Int 4, 1, 0, 0, 0⟩

/-- `maxParallel = 0` with a two-page harvest (`totalPages: 2` from bootstrap). -/
def hangingHarvest : Params Int :=
  ⟨some ⟨some [10], some 2⟩, fun _ _ => .success [1], 1, 0, 2, none,
   exTruthy, exScheds⟩

/-! ### Claims -/

/-- C1: the claim says a throwing `onProgress` never aborts or corrupts the
harvest.  The code contradicts it twice.  First, the bootstrap invocation
(line 98) is not wrapped in `try`/`catch`, so a throwing callback rejects the
whole harvest.  Second, inside the worker the callback is invoked at the end
of the `then` handler, so its exception falls into the `catch` handler, which
records the *succeeded* page in `failed`: with a callback throwing from its
second invocation on, page 2 succeeds in every round (its items `[20]` are in
`data`) and is nevertheless reported in `failedPages`. -/
theorem callback_exception_escapes :
    paginationHarvest throwingCbHarvest = some (.error .callbackThrew) ∧
      paginationHarvest lateThrowCbHarvest = some (.ok ⟨[10, 20], [2]⟩) :=
  ⟨rfl, rfl⟩

/-- C2 (counterexample): with `totalPages = 2` and page 2 failing once then
succeeding on retry, there were three fetch attempts (bootstrap, failed
attempt, retry) but the callback fired only twice — once for the bootstrap and
once for the successful retry; failed attempts fire no callback, so the
claimed count (strictly exceeding `totalPages = 2` when a retry happens) is
refuted: 2 invocations = `totalPages`. -/
theorem progress_not_called_on_failed_attempts :
    (match paginationHarvestFull retriedPageHarvest with
     | some (.ok fres) => some (fres.state.cbCalls, fres.tp, fres.res.failedPages)
     | _ => none) = some (2, 2, []) := rfl

/-- C2 (amended): for every resolving harvest with a progress callback
installed, the callback is invoked exactly once for the bootstrap page and
exactly once per *successful* page-fetch completion — failed attempts fire no
callback — so the invocation count is `1 + (number of successful non-bootstrap
fetch completions)`. -/
theorem progress_calls_once_per_success {α : Type} {P : Params α}
    {fres : FullResult α} (hcb : P.cb.isSome = true)
    (h : paginationHarvestFull P = some (.ok fres)) :
    fres.state.cbCalls = 1 + fres.state.succCount := by
  rcases harvestFull_ok_elim h with ⟨fr, items, _, _, _, _, hcase⟩
  rcases hcase with ⟨_, _, hstate⟩ | ⟨_, ws, g1, hws, hrl, _⟩
  · rw [hstate]
    simp [bootState, hcb]
  · have h1 := runWorker_cb_count (C := wcfg P fres.tp 0) hcb hws
    have h2 := retryLoop_cb_count P fres.tp hcb _ _ _ _ _ _ hrl
    have hb1 : (bootState P items fres.tp).cbCalls = 1 := by
      simp [bootState, hcb]
    have hb2 : (bootState P items fres.tp).succCount = 0 := rfl
    omega

/-- C2 (witness): the amended count at `retriedPageHarvest`: 2 callback
invocations, 1 successful non-bootstrap completion. -/
theorem progress_calls_once_per_success_witness : (2 : Nat) = 1 + 1 :=
  progress_calls_once_per_success (P := retriedPageHarvest) rfl rfl

/-- C3: for every harvest that resolves, `failedPages` is a subset of
`startPage + 1 .. totalPages`, and `startPage` itself is never an element:
the worker is only ever run over page numbers drawn from that range, and a
worker's failed list is a subset of its input. -/
theorem failedPages_subset_tail_range {α : Type} {P : Params α}
    {fres : FullResult α} (h : paginationHarvestFull P = some (.ok fres)) :
    (∀ p ∈ fres.res.failedPages, P.startPage + 1 ≤ p ∧ p ≤ fres.tp) ∧
      P.startPage ∉ fres.res.failedPages := by
  rcases harvestFull_ok_elim h with ⟨fr, items, _, _, _, _, hcase⟩
  have key : ∀ p ∈ fres.res.failedPages, P.startPage + 1 ≤ p ∧ p ≤ fres.tp := by
    rcases hcase with ⟨_, hres, _⟩ | ⟨_, ws, g1, hws, hrl, _⟩
    · rw [hres]
      intro p hp
      simp at hp
    · intro p hp
      have h1 : p ∈ ws.failed :=
        retryLoop_failed_sub P fres.tp _ _ _ _ _ _ hrl p hp
      exact mem_pageRange.1 (runWorker_failed_sub hws p h1)
  refine ⟨key, fun hmem => ?_⟩
  have := (key _ hmem).1
  omega

/-- C3 (witness): at `alwaysFailPage3Harvest` the failed page 3 lies in
`2 .. 3` and the start page 1 is not in `failedPages = [3]`. -/
theorem failedPages_subset_tail_range_witness :
    ((1 : Nat) + 1 ≤ 3 ∧ (3 : Nat) ≤ 3) ∧ (1 : Nat) ∉ ([3] : List Nat) :=
  ⟨(failedPages_subset_tail_range (P := alwaysFailPage3Harvest) rfl).1 3
      (by decide),
   (failedPages_subset_tail_range (P := alwaysFailPage3Harvest) rfl).2⟩

/-- C4: the retry loop reruns the worker over exactly the currently failed
pages at most `maxRetries` additional times (witnessed by the ghost
`workerRuns ≤ 1 + maxRetries`), and a page in the fetchable range whose fetch
fails in every round ends up in the returned `failedPages` with an empty slot —
hence contributes no items to `data`, which is assembled from the slots. -/
theorem always_failing_page_stays_failed {α : Type} {P : Params α}
    {fres : FullResult α} (h : paginationHarvestFull P = some (.ok fres))
    (hsp : 1 ≤ P.startPage) {p : Nat}
    (hlo : P.startPage + 1 ≤ p) (hhi : p ≤ fres.tp)
    (hf : ∀ r, P.fetch r p = .failure) :
    p ∈ fres.res.failedPages ∧ slotAt fres.state p = none ∧
      fres.state.workerRuns ≤ 1 + P.maxRetries := by
  rcases harvestFull_ok_elim h with ⟨fr, items, hfr, hitems, hneg, htp, hcase⟩
  rcases hcase with ⟨h1, hres, hstate⟩ | ⟨hne1, ws, g1, hws, hrl, hdata⟩
  · exfalso
    have : fres.tp = 1 := by
      rw [htp, h1]
      rfl
    omega
  · have hpmem : p ∈ pageRange P.startPage fres.tp := mem_pageRange.2 ⟨hlo, hhi⟩
    have h0 : p ∈ ws.failed := runWorker_fail_mem hws (hf 0) hpmem
    have hfin : p ∈ fres.res.failedPages :=
      retryLoop_fail_stays P fres.tp hf _ _ _ _ _ _ hrl h0
    have hboot : (bootState P items fres.tp).slots.read (p - 1) = none := by
      have hne : p - 1 ≠ P.startPage - 1 := by omega
      show ((Slots.init α fres.tp).write (P.startPage - 1) items).read (p - 1) =
        none
      rw [write_read_of_ne _ _ _ hne]
      rfl
    have hg1 : g1.slots.read (p - 1) =
        (bootState P items fres.tp).slots.read (p - 1) := by
      refine runWorker_slots_pres hws ?_
      intro q hq hqi
      have hq1 := (mem_pageRange.1 hq).1
      have : q = p := by omega
      rw [this]
      exact hf 0
    have hall : ∀ q ∈ ws.failed, 1 ≤ q := by
      intro q hq
      have := (mem_pageRange.1 (runWorker_failed_sub hws q hq)).1
      omega
    have hg2 : fres.state.slots.read (p - 1) = g1.slots.read (p - 1) :=
      retryLoop_slots_pres P fres.tp hf (by omega) _ _ _ _ _ _ hall hrl
    have hrun1 : g1.workerRuns = 1 := by
      have := runWorker_runs hws
      rw [this]
      rfl
    have hrun2 : fres.state.workerRuns ≤ g1.workerRuns + P.maxRetries :=
      retryLoop_runs P fres.tp _ _ _ _ _ _ hrl
    refine ⟨hfin, ?_, by omega⟩
    show fres.state.slots.read (p - 1) = none
    rw [hg2, hg1, hboot]

/-- C4 (witness): at `alwaysFailPage3Harvest`, page 3 (which fails every
round) is in `failedPages`, its slot is empty, and the worker ran
`3 ≤ 1 + maxRetries = 3` times. -/
theorem always_failing_page_stays_failed_witness :
    (3 : Nat) ∈ ([3] : List Nat) ∧ (none : Option (List Int)) = none ∧
      (3 : Nat) ≤ 1 + 2 :=
  always_failing_page_stays_failed (P := alwaysFailPage3Harvest) rfl
    (by decide) (by decide) (by decide) (fun r => rfl)

/-- C5 (counterexample): the bootstrap total `-4` is *not* defaulted to 1 —
JS `||` only replaces falsy values, and a negative number is truthy — and the
harvest then rejects with a RangeError at `Array(totalPages)` instead of
proceeding, refuting both halves of the claim for negative totals. -/
theorem negative_total_not_defaulted :
    computedTotal (⟨some [7], some (-4)⟩ : PageResultM Int) = -4 ∧
      paginationHarvest negativeTotalHarvest = some (.error .rangeError) :=
  ⟨rfl, rfl⟩

/-- C5 (amended): `totalPages` defaults to 1 exactly when the reported total
is absent or zero; any nonzero reported total is kept as-is, and a negative
one makes the harvest reject with a RangeError (from `Array(totalPages)`)
rather than proceed. -/
theorem total_default_only_absent_or_zero {α : Type} :
    (∀ d : Option (List α), computedTotal (⟨d, none⟩ : PageResultM α) = 1) ∧
      (∀ d : Option (List α), computedTotal (⟨d, some 0⟩ : PageResultM α) = 1) ∧
      (∀ (d : Option (List α)) (t : Int), t ≠ 0 →
        computedTotal (⟨d, some t⟩ : PageResultM α) = t) ∧
      (∀ (P : Params α) (fr : PageResultM α) (items : List α),
        P.first = some fr → fr.data = some items → computedTotal fr < 0 →
        paginationHarvest P = some (.error .rangeError)) := by
  refine ⟨fun d => rfl, fun d => rfl,
    fun d t ht => by simp [computedTotal, ht], ?_⟩
  intro P fr items hfr hitems hneg
  simp only [paginationHarvest, paginationHarvestFull, hfr, hitems]
  rw [if_pos hneg]
  rfl

/-- C5 (witness): the amended defaulting rule at concrete totals, and the
RangeError rejection at reported total `-3`. -/
theorem total_default_only_absent_or_zero_witness :
    computedTotal (⟨some [7], none⟩ : PageResultM Int) = 1 ∧
      computedTotal (⟨some [7], some 0⟩ : PageResultM Int) = 1 ∧
      computedTotal (⟨some [7], some (-3)⟩ : PageResultM Int) = -3 ∧
      paginationHarvest negativeTotalHarvest3 = some (.error .rangeError) :=
  ⟨(total_default_only_absent_or_zero (α := Int)).1 _,
   (total_default_only_absent_or_zero (α := Int)).2.1 _,
   (total_default_only_absent_or_zero (α := Int)).2.2.1 _ _ (by decide),
   (total_default_only_absent_or_zero (α := Int)).2.2.2 negativeTotalHarvest3
     _ _ rfl rfl (by decide)⟩

/-- C6: the claim says a `totalPages = 1` harvest returns exactly the
bootstrap page's items.  The short-circuit branch (line 101) computes
`allResults.flat().filter(Boolean)` — `flat` first, then `filter` — so the
`filter(Boolean)` runs over the *items*, dropping falsy ones: with bootstrap
items `[0, 1]` the call resolves with `data = [1]`, not `[0, 1]` (the final
assembly at line 148 uses the correct `filter(Boolean).flat()` order, so this
is a slip in the short-circuit path). -/
theorem short_circuit_drops_falsy_items :
    paginationHarvest falsyItemsHarvest = some (.ok ⟨[1], []⟩) ∧
      ([1] : List Int) ≠ [0, 1] :=
  ⟨rfl, by decide⟩

/-- C7 (counterexample): with `startPage = 2` and `totalPages = 3`, every
fetch succeeding, the harvest resolves with `failedPages = []` although page
1's slot is empty at harvest end — so `failedPages` is *not* the set of page
numbers with empty slots when `startPage > 1`. -/
theorem empty_slot_below_startPage_not_failed :
    (match paginationHarvestFull startPage2Harvest with
     | some (.ok fres) => some (fres.res.failedPages, slotAt fres.state 1)
     | _ => none) = some ([], none) := rfl

/-- C7 (amended): for every resolving harvest whose callback never throws,
`failedPages` is exactly the set of page numbers `p ≥ startPage` with
`p ≤ totalPages` whose slot is empty at harvest end; pages *below* `startPage`
also have empty slots but are never in `failedPages`, so the unrestricted
equality claimed for `startPage > 1` fails. -/
theorem failedPages_iff_empty_slot_from_startPage {α : Type} {P : Params α}
    {fres : FullResult α} (h : paginationHarvestFull P = some (.ok fres))
    (hcb : cbSafe P) (hsp : 1 ≤ P.startPage) :
    ∀ p, P.startPage ≤ p →
      (p ∈ fres.res.failedPages ↔
        (slotAt fres.state p = none ∧ p ≤ fres.tp)) := by
  rcases harvestFull_ok_elim h with ⟨fr, items, hfr, hitems, hneg, htp, hcase⟩
  rcases hcase with ⟨h1, hres, hstate⟩ | ⟨hne1, ws, g1, hws, hrl, hdata⟩
  · have htp1 : fres.tp = 1 := by
      rw [htp, h1]
      rfl
    intro p hp
    rw [hres, hstate]
    simp only [List.not_mem_nil, false_iff, not_and]
    intro hnone hle
    have hp1 : p = 1 := by omega
    have hsp1 : P.startPage = 1 := by omega
    have hread : (bootState P items fres.tp).slots.read 0 = some items := by
      show ((Slots.init α fres.tp).write (P.startPage - 1) items).read 0 =
        some items
      have hidx : P.startPage - 1 = 0 := by omega
      rw [hidx]
      exact write_read_self _ _ _
    rw [slotAt] at hnone
    have hp0 : p - 1 = 0 := by omega
    rw [hp0, hread] at hnone
    exact absurd hnone (by simp)
  · have hbase : ∀ p, p ∈ ws.failed ↔
        (P.startPage + 1 ≤ p ∧ p ≤ fres.tp ∧ g1.slots.read (p - 1) = none) := by
      intro p
      constructor
      · intro hp
        have hpr := runWorker_failed_sub hws p hp
        have hbounds := mem_pageRange.1 hpr
        refine ⟨hbounds.1, hbounds.2, ?_⟩
        have hfail : P.fetch 0 p = .failure :=
          runWorker_failed_from (fun f hf a b => hcb f hf a b) hws hp
        have hpres : g1.slots.read (p - 1) =
            (bootState P items fres.tp).slots.read (p - 1) := by
          refine runWorker_slots_pres hws ?_
          intro q hq hqi
          have hq1 := (mem_pageRange.1 hq).1
          have : q = p := by omega
          rw [this]
          exact hfail
        rw [hpres]
        have hne : p - 1 ≠ P.startPage - 1 := by omega
        show ((Slots.init α fres.tp).write (P.startPage - 1) items).read
          (p - 1) = none
        rw [write_read_of_ne _ _ _ hne]
        rfl
      · rintro ⟨hb1, hb2, hb3⟩
        have hpmem : p ∈ pageRange P.startPage fres.tp :=
          mem_pageRange.2 ⟨hb1, hb2⟩
        cases hout : P.fetch 0 p with
        | success its => exact absurd hb3 (runWorker_succ_written hws hout hpmem)
        | failure => exact runWorker_fail_mem hws hout hpmem
    have hinv := retryLoop_inv P fres.tp hcb _ _ _ _ _ _ hbase hrl
    intro p hp
    constructor
    · intro hmem
      have := (hinv p).1 hmem
      exact ⟨this.2.2, this.2.1⟩
    · rintro ⟨hnone, hle⟩
      rcases Nat.lt_or_ge P.startPage p with hlt | hge
      · exact (hinv p).2 ⟨by omega, hle, hnone⟩
      · have hpe : p = P.startPage := by omega
        exfalso
        have hboot : (bootState P items fres.tp).slots.read (p - 1) ≠ none := by
          rw [hpe]
          show ((Slots.init α fres.tp).write (P.startPage - 1) items).read
            (P.startPage - 1) ≠ none
          rw [write_read_self _ _ _]
          simp
        have hg1 := runWorker_slots_mono hws hboot
        have hg2 := retryLoop_slots_mono P fres.tp _ _ _ _ _ _ hg1 hrl
        exact hg2 hnone

/-- C7 (witness): the amended equality at `alwaysFailPage3Harvest`, `p = 3`:
page 3 is failed iff its slot is empty (both hold). -/
theorem failedPages_iff_empty_slot_from_startPage_witness :
    (3 : Nat) ∈ ([3] : List Nat) ↔
      ((none : Option (List Int)) = none ∧ (3 : Nat) ≤ 3) :=
  failedPages_iff_empty_slot_from_startPage (P := alwaysFailPage3Harvest) rfl
    (fun f hf => by
      have hf' : (none : Option (Nat → Nat → Bool)) = some f := hf
      cases hf')
    (by decide) 3 (by decide)

/-- C8: during every resolving worker run, the number of concurrently
in-flight fetches never exceeds `maxParallel`: the launch loop's guard
increments `running` only while `running < maxParallel`, and every settle
decrements it, so the ghost `peak` (the maximum `running` ever attained,
recorded at each launch) is bounded by the cap. -/
theorem inflight_peak_le_maxParallel {α : Type} {C : WCfg α}
    {pages sched : List Nat} {g : HState α} {ws : WState} {gf : HState α}
    (hC : 1 ≤ C.maxParallel)
    (h : runWorker C pages sched g = some (ws, gf)) :
    (ws.peak : Int) ≤ C.maxParallel := by
  have hpk := runWorker_peak h
  omega

/-- C8 (witness): the cap-2 worker over pages `[2, 3, 4]` resolves with peak
in-flight count 2 ≤ 2. -/
theorem inflight_peak_le_maxParallel_witness : ((2 : Nat) : Int) ≤ 2 :=
  @inflight_peak_le_maxParallel Int peakCfg [2, 3, 4] [0, 0, 0, 0] idleState
    _ _ (by decide) rfl

/-- C9: a `parallelWorker` call on an empty page sequence resolves immediately
— on the very first `runNext` the resolve condition `pointer === pages.length
&& running === 0` holds — with an empty failed list, no fetch launched, and
the shared state untouched (except the ghost invocation counter). -/
theorem empty_pages_resolves_immediately {α : Type} (C : WCfg α)
    (sched : List Nat) (g : HState α) :
    runWorker C [] sched g =
      some (initW, { g with workerRuns := g.workerRuns + 1 }) := rfl

/-- C10: with `maxParallel ≤ 0` the launch loop's guard `running < maxParallel`
is never satisfied, so over a non-empty page queue the worker launches no
fetch and its resolve condition is never reached: the promise never resolves
(for every fuel and schedule), and consequently a harvest whose bootstrap
yields `totalPages > startPage` hangs forever — nothing validates the spec's
precondition that the cap be at least 1. -/
theorem maxParallel_nonpositive_hangs {α : Type} (P : Params α)
    (hC : P.maxParallel ≤ 0) {fr : PageResultM α} {items : List α}
    (hfr : P.first = some fr) (hitems : fr.data = some items)
    (hsp : 1 ≤ P.startPage)
    (hlt : (P.startPage : Int) < computedTotal fr)
    (hcb : bootThrew P (computedTotal fr).toNat = false) :
    (∀ (C : WCfg α) (pages : List Nat), C.maxParallel ≤ 0 → pages ≠ [] →
      ∀ (fuel : Nat) (sched : List Nat) (g : HState α),
        workerGo C pages fuel sched (launch C pages initW) g = none) ∧
      paginationHarvest P = none := by
  have hworker : ∀ (C : WCfg α) (pages : List Nat), C.maxParallel ≤ 0 →
      pages ≠ [] → ∀ (fuel : Nat) (sched : List Nat) (g : HState α),
        workerGo C pages fuel sched (launch C pages initW) g = none := by
    intro C pages hC0 hne fuel sched g
    rw [launch_of_nonpos C pages initW hC0]
    cases fuel with
    | zero => rfl
    | succ fuel =>
        rw [workerGo]
        rw [if_neg]
        · rfl
        · intro hcon
          exact hne (List.length_eq_zero.1 hcon.1.symm)
  refine ⟨hworker, ?_⟩
  have hneg : ¬ computedTotal fr < 0 := by omega
  have hne1 : ¬ computedTotal fr = 1 := by omega
  simp only [paginationHarvest, paginationHarvestFull, hfr, hitems]
  rw [if_neg hneg, if_neg (by simp [hcb]), if_neg hne1]
  have hlen : pageRange P.startPage (computedTotal fr).toNat ≠ [] := by
    have : (pageRange P.startPage (computedTotal fr).toNat).length =
        (computedTotal fr).toNat - P.startPage := List.length_range' _ _ _
    intro hnil
    rw [hnil] at this
    simp at this
    omega
  rw [runWorker, hworker (wcfg P (computedTotal fr).toNat 0) _ hC hlen]
  rfl

/-- C10 (witness): at `hangingHarvest` (`maxParallel = 0`, `totalPages = 2`):
the worker never resolves at fuel 5, and the harvest hangs. -/
theorem maxParallel_nonpositive_hangs_witness :
    workerGo (wcfg hangingHarvest 2 0) [2] 5 [0, 0]
        (launch (wcfg hangingHarvest 2 0) [2] initW) idleState = none ∧
      paginationHarvest hangingHarvest = none :=
  ⟨(maxParallel_nonpositive_hangs hangingHarvest (by decide) rfl rfl
      (by decide) (by decide) rfl).1 (wcfg hangingHarvest 2 0) [2] (by decide)
      (by decide) 5 [0, 0] idleState,
   (maxParallel_nonpositive_hangs hangingHarvest (by decide) rfl rfl
      (by decide) (by decide) rfl).2⟩

end PaginationHarvest
